import Mathlib

/-!
Verification of the `createEventState` path-based store of the
`uistate-examples` repository. The main model follows the EventState v2
implementation with batching, async lifecycle and destroy guards
(src/unnamed/part_015); the older EventTarget-based variant
(src/unnamed/part_000) is modelled where a claim cites its tree-update
code. JavaScript values are embedded as the inductive `Val`; strict-mode
property assignment on a primitive is modelled as failure (`Option`).
-/

namespace EventState

/-- JSON-like JavaScript values. Objects are insertion-ordered
association lists, as JavaScript string-keyed objects are. -/
inductive Val where
  | vUndefined : Val
  | vNull : Val
  | vBool (b : Bool) : Val
  | vNum (n : Int) : Val
  | vStr (s : String) : Val
  | vObj (fields : List (String × Val)) : Val
deriving Repr, BEq

/-- JavaScript truthiness test, negated: `!x` on the embedded values. -/
def Val.falsy : Val → Bool
  | .vUndefined => true
  | .vNull => true
  | .vBool b => !b
  | .vNum n => n == 0
  | .vStr s => s == ""
  | .vObj _ => false

/-- `typeof x === "object"` for a non-null value (objects only). -/
def Val.isObj : Val → Bool
  | .vObj _ => true
  | _ => false

/-- Field lookup in an object literal; missing keys read as `undefined`. -/
def getField : List (String × Val) → String → Val
  | [], _ => .vUndefined
  | (k', v') :: rest, k => if k' == k then v' else getField rest k

/-- Field assignment: update in place keeping the key's position, or
append a new key at the end (JavaScript object insertion order). -/
def setField : List (String × Val) → String → Val → List (String × Val)
  | [], k, v => [(k, v)]
  | (k', v') :: rest, k, v =>
      if k' == k then (k', v) :: rest else (k', v') :: setField rest k v

/-- Property read `cur[p]`: on objects a field lookup, on primitives
`undefined` (the sources never read boxed primitive properties). -/
def jsGetProp (v : Val) (k : String) : Val :=
  match v with
  | .vObj fs => getField fs k
  | _ => .vUndefined

/-- The tree-mutation walk of `writeAndNotify` in part_015:
`for (const p of parts) { if (!cur[p]) cur[p] = {}; cur = cur[p]; }`
then `cur[key] = value`. A falsy slot is replaced by `{}`; a truthy
slot is descended into unchanged, so a truthy primitive later makes the
strict-mode property assignment throw, modelled as `none`. -/
def writeTree : Val → List String → String → Val → Option Val
  | cur, [], key, value =>
      match cur with
      | .vObj fs => some (.vObj (setField fs key value))
      | _ => none
  | cur, p :: rest, key, value =>
      if (jsGetProp cur p).falsy then
        match cur with
        | .vObj fs =>
            match writeTree (Val.vObj []) rest key value with
            | some c => some (.vObj (setField fs p c))
            | none => none
        | _ => none
      else
        match cur with
        | .vObj fs =>
            match writeTree (getField fs p) rest key value with
            | some c => some (.vObj (setField fs p c))
            | none => none
        | _ => none

/-- The tree-mutation walk of `set` in part_000:
`if (!target[part] || typeof target[part] !== "object") target[part] = {}`
— any falsy or non-object intermediate is replaced, so the walk never
descends into a primitive and the final assignment cannot throw. -/
def writeTree000 : Val → List String → String → Val → Val
  | cur, [], key, value =>
      match cur with
      | .vObj fs => .vObj (setField fs key value)
      | _ => cur
  | cur, p :: rest, key, value =>
      match cur with
      | .vObj fs =>
          let child := getField fs p
          let child' := if child.falsy || !child.isObj then Val.vObj [] else child
          .vObj (setField fs p (writeTree000 child' rest key value))
      | _ => cur

/-- The read walk of `get` in part_015:
`for (const p of parts) { if (cur == null) return undefined; cur = cur[p]; }`.
`cur == null` is loose equality, true exactly for `null` and `undefined`. -/
def getPath : Val → List String → Val
  | cur, [] => cur
  | cur, p :: rest =>
      match cur with
      | .vUndefined => .vUndefined
      | .vNull => .vUndefined
      | _ => getPath (jsGetProp cur p) rest

@[simp] theorem getField_setField_self (fs : List (String × Val)) (k : String) (v : Val) :
    getField (setField fs k v) k = v := by
  induction fs with
  | nil => simp [setField, getField]
  | cons e rest ih =>
      obtain ⟨k', v'⟩ := e
      by_cases h : k' == k
      · simp [setField, getField, h]
      · simp only [setField, getField, h, if_false, Bool.false_eq_true]
        exact ih

theorem getField_setField_ne (fs : List (String × Val)) (k k' : String) (v : Val)
    (h : k ≠ k') : getField (setField fs k v) k' = getField fs k' := by
  induction fs with
  | nil =>
      have hb : (k == k') = false := by simpa using h
      simp [setField, getField, hb]
  | cons e rest ih =>
      obtain ⟨k₀, v₀⟩ := e
      by_cases h0 : (k₀ == k) = true
      · have hk : k₀ = k := by simpa using h0
        subst hk
        have hb : (k₀ == k') = false := by simpa using h
        simp [setField, getField, hb]
      · have h0' : (k₀ == k) = false := by simpa using h0
        by_cases h1 : (k₀ == k') = true
        · simp [setField, getField, h0', h1]
        · have h1' : (k₀ == k') = false := by simpa using h1
          simp [setField, getField, h0', h1', ih]

/-- Round trip at the tree level: a successful part_015 write of `value`
under ancestors `ps` and final key `key` makes the read walk return
exactly `value` (the very value stored, i.e. reference equality in JS). -/
theorem getPath_writeTree (ps : List String) :
    ∀ (cur st' : Val) (key : String) (value : Val),
      writeTree cur ps key value = some st' →
      getPath st' (ps ++ [key]) = value := by
  induction ps with
  | nil =>
      intro cur st' key value h
      cases cur with
      | vObj fs =>
          simp only [writeTree, Option.some.injEq] at h
          subst h
          simp [getPath, jsGetProp]
      | vUndefined => simp [writeTree] at h
      | vNull => simp [writeTree] at h
      | vBool b => simp [writeTree] at h
      | vNum n => simp [writeTree] at h
      | vStr s => simp [writeTree] at h
  | cons p rest ih =>
      intro cur st' key value h
      cases cur with
      | vObj fs =>
          simp only [writeTree] at h
          by_cases hf : (jsGetProp (Val.vObj fs) p).falsy
          · simp only [hf, if_true] at h
            cases hw : writeTree (Val.vObj []) rest key value with
            | none => rw [hw] at h; exact absurd h (by simp)
            | some c =>
                rw [hw] at h
                simp only [Option.some.injEq] at h
                subst h
                simp only [List.cons_append, getPath, jsGetProp,
                  getField_setField_self]
                exact ih _ _ _ _ hw
          · simp only [hf, Bool.false_eq_true, if_false] at h
            cases hw : writeTree (getField fs p) rest key value with
            | none => rw [hw] at h; exact absurd h (by simp)
            | some c =>
                rw [hw] at h
                simp only [Option.some.injEq] at h
                subst h
                simp only [List.cons_append, getPath, jsGetProp,
                  getField_setField_self]
                exact ih _ _ _ _ hw
      | vUndefined => simp [writeTree, jsGetProp, Val.falsy] at h
      | vNull => simp [writeTree, jsGetProp, Val.falsy] at h
      | vBool b => simp [writeTree, jsGetProp, Val.falsy] at h
      | vNum n => simp [writeTree, jsGetProp, Val.falsy] at h
      | vStr s => simp [writeTree, jsGetProp, Val.falsy] at h

/-- One handler invocation, recorded as (listener-map key, handler id,
written value): handlers are opaque, so a handler is a `Nat` identifier;
the value is the `value` field of the detail the handler receives. -/
abbrev Fired := String × Nat × Val

/-- `Map.set` on an insertion-ordered association list: update in place
keeping the key's original position, else append. Used for the
`listeners`, `batchBuffer` and `asyncOps` Maps of part_015. -/
def mapSet {α : Type} : List (String × α) → String → α → List (String × α)
  | [], k, v => [(k, v)]
  | (k', v') :: rest, k, v =>
      if k' == k then (k', v) :: rest else (k', v') :: mapSet rest k v

/-- `Map.get`, as `Option`. -/
def mapGet {α : Type} : List (String × α) → String → Option α
  | [], _ => none
  | (k', v') :: rest, k => if k' == k then some v' else mapGet rest k

/-- `Map.delete`. -/
def mapDel {α : Type} : List (String × α) → String → List (String × α)
  | [], _ => []
  | (k', v') :: rest, k =>
      if k' == k then rest else (k', v') :: mapDel rest k

/-- `Set.add` on an insertion-ordered handler set. -/
def setAdd (l : List Nat) (h : Nat) : List Nat := if h ∈ l then l else l ++ [h]

/-- Everything closed over by `createEventState` in part_015: the state
tree, the listeners Map (key → Set of handlers), the async-operation
records (path → controller id), the destroyed and batching flags and the
batch buffer. `abortedCtrls` records which controllers have had
`.abort()` called, and `opPath` records each controller's path so that a
fetcher completion can resume its `setAsync` continuation. -/
structure Store where
  state : Val
  listeners : List (String × List Nat)
  asyncOps : List (String × Nat)
  destroyed : Bool
  batching : Bool
  batchBuffer : List (String × Val)
  abortedCtrls : List Nat
  opPath : List (Nat × String)
deriving Repr

/-- `createEventState(initial)`: the deep clone of a JSON-shaped initial
value is the value itself in this embedding. -/
def createEventState (initial : Val) : Store :=
  { state := initial, listeners := [], asyncOps := [], destroyed := false,
    batching := false, batchBuffer := [], abortedCtrls := [], opPath := [] }

/-- Errors a store operation can throw. -/
inductive Err where
  | destroyedErr : Err
  | typeError : Err
  | argError : Err
  | abortErr : Err
  | userErr : Err
deriving Repr, BEq, DecidableEq

/-- Result of one store operation: the new closure state, the handler
invocations it performed in order, the exception it threw (if any) and
its return value. -/
structure OpRes where
  store : Store
  fired : List Fired
  err : Option Err
  ret : Val

/-- Handlers registered under `k`, fired in insertion order, each
receiving the written value `v`. -/
def fireGroup (m : List (String × List Nat)) (k : String) (v : Val) : List Fired :=
  match mapGet m k with
  | some hs => hs.map (fun h => (k, h, v))
  | none => []

/-- The cumulative ancestor prefixes built by the wildcard loop:
`parent = parent ? parent + "." + p : p` for each ancestor segment. -/
def prefixAcc : String → List String → List String
  | _, [] => []
  | parent, p :: rest =>
      let par2 := if parent == "" then p else parent ++ "." ++ p
      par2 :: prefixAcc par2 rest

/-- `path.split(".")`, embedded as a structural walk over the path's
characters: split at every dot, keeping empty segments, with
`"".split(".") = [""]` as in JavaScript. -/
def splitDotsAux : List Char → List Char → List String
  | [], acc => [String.mk acc.reverse]
  | c :: rest, acc =>
      if c = '.' then String.mk acc.reverse :: splitDotsAux rest []
      else splitDotsAux rest (c :: acc)

def splitDots (p : String) : List String := splitDotsAux p.toList []

/-- The notification pass of `writeAndNotify`: exact-path handlers,
then (when there is at least one ancestor segment) the `prefix.*`
handlers from the outermost prefix inward, then the global `*` handlers. -/
def notifySeq (m : List (String × List Nat)) (path : String) (value : Val)
    (ancestors : List String) : List Fired :=
  fireGroup m path value
    ++ (if ancestors.isEmpty then []
        else (prefixAcc "" ancestors).flatMap (fun pre => fireGroup m (pre ++ ".*") value))
    ++ fireGroup m "*" value

/-- `writeAndNotify(path, value)` of part_015: split the path, mutate
the tree (`none` models the strict-mode TypeError on a truthy primitive
intermediate, in which case nothing is written or notified), then — when
the store is not destroyed — run the notification pass. -/
def writeAndNotifyOp (s : Store) (path : String) (value : Val) :
    Option (Store × List Fired) :=
  let parts := splitDots path
  let key := parts.getLastD ""
  let ancestors := parts.dropLast
  match writeTree s.state ancestors key value with
  | some st' =>
      some ({ s with state := st' },
        if s.destroyed then [] else notifySeq s.listeners path value ancestors)
  | none => none

/-- `get(path)` of part_015. `path = none` models `get()` /
`get(undefined)`. -/
def getOp (s : Store) (path : Option String) : Except Err Val :=
  if s.destroyed then .error .destroyedErr
  else
    match path with
    | none => .ok s.state
    | some p =>
        if p == "" then .ok s.state
        else .ok (getPath s.state (splitDots p))

/-- `set(path, value)` of part_015: destroyed guard, falsy-path no-op,
batching buffer, else `writeAndNotify`. -/
def setOp (s : Store) (path : Option String) (value : Val) : OpRes :=
  if s.destroyed then ⟨s, [], some .destroyedErr, .vUndefined⟩
  else
    match path with
    | none => ⟨s, [], none, value⟩
    | some p =>
        if p == "" then ⟨s, [], none, value⟩
        else if s.batching then
          ⟨{ s with batchBuffer := mapSet s.batchBuffer p value }, [], none, value⟩
        else
          match writeAndNotifyOp s p value with
          | some (s', f) => ⟨s', f, none, value⟩
          | none => ⟨s, [], some .typeError, .vUndefined⟩

/-- `subscribe(path, handler)` of part_015, with the handler as an id.
On success the listener set under `path` gains the handler (a `Set`, so
re-adding an existing handler is a no-op). -/
def subscribeOp (s : Store) (path : String) (h : Nat) : Except Err Store :=
  if s.destroyed then .error .destroyedErr
  else if path == "" then .error .argError
  else
    .ok { s with listeners :=
      match mapGet s.listeners path with
      | some hs => mapSet s.listeners path (setAdd hs h)
      | none => mapSet s.listeners path (setAdd [] h) }

/-- Invoking the closure `() => listeners.get(path)?.delete(handler)`
returned by `subscribe`. `none` would model a thrown TypeError; the
optional chaining makes the missing-entry case a plain no-op instead. -/
def unsubRun (s : Store) (path : String) (h : Nat) : Option Store :=
  match mapGet s.listeners path with
  | none => some s
  | some hs => some { s with listeners := mapSet s.listeners path (hs.erase h) }

/-- `destroy()` of part_015: idempotent; aborts every in-flight async
operation, clears the buffers and listeners and enters the terminal
destroyed state. -/
def destroyOp (s : Store) : Store :=
  if s.destroyed then s
  else
    { s with
      destroyed := true
      batchBuffer := []
      abortedCtrls := s.asyncOps.map (·.2) ++ s.abortedCtrls
      asyncOps := []
      listeners := [] }

/-- A client script run against the store: `set` calls, nested `batch`
calls, and a thrown exception, which is how an arbitrary failing batch
body is embedded. -/
inductive Act where
  | aset (p : String) (v : Val) : Act
  | abatch (body : List Act) : Act
  | athrow : Act
deriving Repr

/-- `flushBatch()`: snapshot the buffer entries, clear the buffer, and
replay each entry through `writeAndNotify`; a TypeError during a replay
aborts the remaining entries (they were already cleared). -/
def flushEntries : Store → List (String × Val) → Store × List Fired × Option Err
  | s, [] => (s, [], none)
  | s, (p, v) :: rest =>
      match writeAndNotifyOp s p v with
      | none => (s, [], some .typeError)
      | some (s1, f1) =>
          let (s2, f2, e2) := flushEntries s1 rest
          (s2, f1 ++ f2, e2)

def flushBatchOp (s : Store) : Store × List Fired × Option Err :=
  flushEntries { s with batchBuffer := [] } s.batchBuffer

mutual
/-- Run one client action. `abatch` is `batch(fn)` of part_015: save the
batching flag, set it, run the body, and in a `finally` restore the flag
and — when this was the outermost batch — flush; an exception raised in
the flush replaces the body's exception, as a throwing `finally` does. -/
def runAct : Store → Act → Store × List Fired × Option Err
  | s, .aset p v =>
      let r := setOp s (some p) v
      (r.store, r.fired, r.err)
  | s, .athrow => (s, [], some .userErr)
  | s, .abatch body =>
      if s.destroyed then (s, [], some .destroyedErr)
      else
        let was := s.batching
        let (s1, f1, e1) := runActs { s with batching := true } body
        let s2 := { s1 with batching := was }
        if was then (s2, f1, e1)
        else
          let (s3, f3, e3) := flushBatchOp s2
          (s3, f1 ++ f3, match e3 with | some e => some e | none => e1)

/-- Run a sequence of actions; an exception stops the sequence. -/
def runActs : Store → List Act → Store × List Fired × Option Err
  | s, [] => (s, [], none)
  | s, a :: rest =>
      let (s1, f1, e1) := runAct s a
      match e1 with
      | some e => (s1, f1, some e)
      | none =>
          let (s2, f2, e2) := runActs s1 rest
          (s2, f1 ++ f2, e2)
end

/-- `Map.get` for the controller-path table. -/
def opGet : List (Nat × String) → Nat → Option String
  | [], _ => none
  | (k', v') :: rest, k => if k' == k then some v' else opGet rest k

def opSet : List (Nat × String) → Nat → String → List (Nat × String)
  | [], k, v => [(k, v)]
  | (k', v') :: rest, k, v =>
      if k' == k then (k', v) :: rest else (k', v') :: opSet rest k v

/-- The `finally` clause of `setAsync`: delete the path's async record
only if it still holds this very controller. -/
def finallyClear (s : Store) (p : String) (ctrl : Nat) : Store :=
  match mapGet s.asyncOps p with
  | some cur => if cur == ctrl then { s with asyncOps := mapDel s.asyncOps p } else s
  | none => s

/-- The synchronous prefix of `setAsync(path, fetcher)` up to the
`await`: abort any prior operation at the path, register a fresh
controller, and batch-write `path.status = "loading"`,
`path.error = null`. -/
def stepStart (s : Store) (ctrl : Nat) (p : String) : Store × List Fired × Option Err :=
  if s.destroyed then (s, [], some .destroyedErr)
  else if p == "" then (s, [], some .argError)
  else
    let s1 :=
      match mapGet s.asyncOps p with
      | some old => { s with abortedCtrls := old :: s.abortedCtrls }
      | none => s
    let s2 := { s1 with asyncOps := mapSet s1.asyncOps p ctrl,
                        opPath := opSet s1.opPath ctrl p }
    runAct s2 (.abatch [.aset (p ++ ".status") (.vStr "loading"),
                        .aset (p ++ ".error") .vNull])

/-- The continuation of `setAsync` when its fetcher fulfills with
`data`: re-check destroyed, batch-write `path.data` and
`path.status = "success"`, then run the `finally` clause. -/
def stepResolveOk (s : Store) (ctrl : Nat) (data : Val) : Store × List Fired × Option Err :=
  match opGet s.opPath ctrl with
  | none => (s, [], none)
  | some p =>
      if s.destroyed then (finallyClear s p ctrl, [], some .destroyedErr)
      else
        let (s1, f1, e1) := runAct s (.abatch [.aset (p ++ ".data") data,
                                               .aset (p ++ ".status") (.vStr "success")])
        (finallyClear s1 p ctrl, f1, e1)

/-- The continuation of `setAsync` when its fetcher rejects with an
AbortError (a cooperative fetcher observing the aborted signal): write
`path.status = "cancelled"` un-batched, throw a cancellation error, and
run the `finally` clause. -/
def stepResolveAbort (s : Store) (ctrl : Nat) : Store × List Fired × Option Err :=
  match opGet s.opPath ctrl with
  | none => (s, [], none)
  | some p =>
      let r := setOp s (some (p ++ ".status")) (.vStr "cancelled")
      (finallyClear r.store p ctrl, r.fired,
        match r.err with | some e => some e | none => some .abortErr)

/-! ### Helper lemmas -/

theorem splitDotsAux_ne_nil (l : List Char) : ∀ acc, splitDotsAux l acc ≠ [] := by
  induction l with
  | nil => intro acc; simp [splitDotsAux]
  | cons c rest ih =>
      intro acc
      by_cases h : c = '.'
      · simp [splitDotsAux, h]
      · simp only [splitDotsAux, h, if_false, ite_false]
        exact ih (c :: acc)

theorem splitDots_ne_nil (p : String) : splitDots p ≠ [] :=
  splitDotsAux_ne_nil p.toList []

theorem mapGet_mapSet_self {α : Type} (m : List (String × α)) (k : String) (v : α) :
    mapGet (mapSet m k v) k = some v := by
  induction m with
  | nil => simp [mapSet, mapGet]
  | cons e rest ih =>
      obtain ⟨k', v'⟩ := e
      by_cases h : (k' == k) = true
      · simp [mapSet, mapGet, h]
      · have h' : (k' == k) = false := by simpa using h
        simp [mapSet, mapGet, h', ih]

theorem mapGet_mapSet_ne {α : Type} (m : List (String × α)) (k k' : String) (v : α)
    (h : k ≠ k') : mapGet (mapSet m k v) k' = mapGet m k' := by
  induction m with
  | nil =>
      have hb : (k == k') = false := by simpa using h
      simp [mapSet, mapGet, hb]
  | cons e rest ih =>
      obtain ⟨k₀, v₀⟩ := e
      by_cases h0 : (k₀ == k) = true
      · have hk : k₀ = k := by simpa using h0
        subst hk
        have hb : (k₀ == k') = false := by simpa using h
        simp [mapSet, mapGet, hb]
      · have h0' : (k₀ == k) = false := by simpa using h0
        by_cases h1 : (k₀ == k') = true
        · simp [mapSet, mapGet, h0', h1]
        · have h1' : (k₀ == k') = false := by simpa using h1
          simp [mapSet, mapGet, h0', h1', ih]

theorem mapSet_mapSet_self {α : Type} (m : List (String × α)) (k : String) (v w : α) :
    mapSet (mapSet m k v) k w = mapSet m k w := by
  induction m with
  | nil => simp [mapSet]
  | cons e rest ih =>
      obtain ⟨k', v'⟩ := e
      by_cases h : (k' == k) = true
      · simp [mapSet, h]
      · have h' : (k' == k) = false := by simpa using h
        simp [mapSet, h', ih]

theorem mapGet_mem {α : Type} (m : List (String × α)) (k : String) (v : α)
    (h : mapGet m k = some v) : (k, v) ∈ m := by
  induction m with
  | nil => simp [mapGet] at h
  | cons e rest ih =>
      obtain ⟨k', v'⟩ := e
      by_cases h0 : (k' == k) = true
      · have hk : k' = k := by simpa using h0
        subst hk
        simp only [mapGet, beq_self_eq_true, if_true, Option.some.injEq] at h
        subst h
        exact List.mem_cons_self ..
      · have h0' : (k' == k) = false := by simpa using h0
        simp only [mapGet, h0', Bool.false_eq_true, if_false] at h
        exact List.mem_cons_of_mem _ (ih h)

theorem prefixAcc_length (l : List String) : ∀ par, (prefixAcc par l).length = l.length := by
  induction l with
  | nil => intro par; simp [prefixAcc]
  | cons p rest ih => intro par; simp [prefixAcc, ih]

theorem writeAndNotifyOp_fields (s : Store) (p : String) (v : Val) (s' : Store)
    (f : List Fired) (h : writeAndNotifyOp s p v = some (s', f)) :
    s'.listeners = s.listeners ∧ s'.destroyed = s.destroyed ∧
    s'.batching = s.batching ∧ s'.batchBuffer = s.batchBuffer ∧
    s'.asyncOps = s.asyncOps ∧ s'.abortedCtrls = s.abortedCtrls ∧
    s'.opPath = s.opPath := by
  simp only [writeAndNotifyOp] at h
  cases hw : writeTree s.state ((splitDots p).dropLast) ((splitDots p).getLastD "") v with
  | none => rw [hw] at h; exact absurd h (by simp)
  | some st' =>
      rw [hw] at h
      simp only [Option.some.injEq, Prod.mk.injEq] at h
      obtain ⟨h1, _⟩ := h
      subst h1
      exact ⟨rfl, rfl, rfl, rfl, rfl, rfl, rfl⟩

/-! ### Claim C7: falsy path is a complete no-op -/

/-- C7: on a live store, `set` with a falsy path (undefined or the empty
string) leaves the closure state entirely unchanged, fires no handler of
any kind, throws nothing, and returns the value unchanged. -/
theorem set_falsy_path_noop (s : Store) (v : Val) (hd : s.destroyed = false) :
    setOp s none v = ⟨s, [], none, v⟩ ∧ setOp s (some "") v = ⟨s, [], none, v⟩ := by
  constructor
  · simp [setOp, hd]
  · simp [setOp, hd]

/-- Witness for C7 at a concrete store and value. -/
theorem set_falsy_path_noop_witness :
    (createEventState (Val.vObj [("count", Val.vNum 0)])).destroyed = false ∧
    (setOp (createEventState (Val.vObj [("count", Val.vNum 0)])) none (Val.vNum 123) =
      ⟨createEventState (Val.vObj [("count", Val.vNum 0)]), [], none, Val.vNum 123⟩ ∧
     setOp (createEventState (Val.vObj [("count", Val.vNum 0)])) (some "") (Val.vNum 123) =
      ⟨createEventState (Val.vObj [("count", Val.vNum 0)]), [], none, Val.vNum 123⟩) :=
  ⟨rfl, set_falsy_path_noop _ _ rfl⟩

/-! ### Claim C5: destroyed guard and idempotent destroy -/

/-- C5: after `destroy()` the store is in the destroyed terminal state:
every `get`, `set` and `subscribe` call throws the destroyed-store
error without changing anything, so every subsequent call (not only the
first) fails; `destroy()` is idempotent. -/
theorem destroyed_guard (s : Store) (p : Option String) (k : String) (v : Val) (h : Nat) :
    (destroyOp s).destroyed = true ∧
    getOp (destroyOp s) p = .error .destroyedErr ∧
    setOp (destroyOp s) p v = ⟨destroyOp s, [], some .destroyedErr, .vUndefined⟩ ∧
    subscribeOp (destroyOp s) k h = .error .destroyedErr ∧
    destroyOp (destroyOp s) = destroyOp s := by
  have hdes : (destroyOp s).destroyed = true := by
    unfold destroyOp
    by_cases hd : s.destroyed = true
    · simp [hd]
    · have hd' : s.destroyed = false := by simpa using hd
      simp [hd']
  have hid : ∀ t : Store, t.destroyed = true → destroyOp t = t := by
    intro t ht
    simp [destroyOp, ht]
  refine ⟨hdes, ?_, ?_, ?_, hid _ hdes⟩
  · simp [getOp, hdes]
  · simp [setOp, hdes]
  · simp [subscribeOp, hdes]

/-! ### Claim C2: set/get round trip -/

/-- C2: on a live, non-batching store, a `set(p, v)` that completes
(throws nothing) followed by `get(p)` returns exactly the value `v`
that was stored — the very same value, which is the embedding of
JavaScript reference equality for objects and arrays. -/
theorem set_get_roundtrip (s : Store) (p : String) (v : Val)
    (hd : s.destroyed = false) (hb : s.batching = false) (hp : p ≠ "")
    (hok : (setOp s (some p) v).err = none) :
    getOp ((setOp s (some p) v).store) (some p) = .ok v := by
  have hp' : (p == "") = false := by simpa using hp
  cases hw : writeAndNotifyOp s p v with
  | none =>
      exfalso
      simp only [setOp, hd, Bool.false_eq_true, if_false, hp', hb, hw] at hok
      exact Option.some_ne_none _ hok
  | some res =>
      obtain ⟨s', f⟩ := res
      have hset : setOp s (some p) v = ⟨s', f, none, v⟩ := by
        simp [setOp, hd, hp', hb, hw]
      rw [hset]
      have hfields := writeAndNotifyOp_fields s p v s' f hw
      have hd' : s'.destroyed = false := by rw [hfields.2.1, hd]
      -- extract the tree written by writeAndNotify
      simp only [writeAndNotifyOp] at hw
      cases hwt : writeTree s.state ((splitDots p).dropLast)
          ((splitDots p).getLastD "") v with
      | none => rw [hwt] at hw; exact absurd hw (by simp)
      | some st' =>
          rw [hwt] at hw
          simp only [Option.some.injEq, Prod.mk.injEq] at hw
          obtain ⟨hs', _⟩ := hw
          have hstate : s'.state = st' := by rw [← hs']
          have hne : splitDots p ≠ [] := splitDots_ne_nil p
          have hlast : (splitDots p).getLastD "" = (splitDots p).getLast hne := by
            rw [List.getLastD_eq_getLast?, List.getLast?_eq_getLast _ hne]
            rfl
          rw [hlast] at hwt
          have hget := getPath_writeTree ((splitDots p).dropLast) s.state st'
            ((splitDots p).getLast hne) v hwt
          rw [List.dropLast_append_getLast hne] at hget
          simp [getOp, hd', hp', hstate, hget]

/-- Witness for C2: `set("user.name", "Bob")` then `get("user.name")`
on a small concrete store. -/
theorem set_get_roundtrip_witness :
    (createEventState (Val.vObj [("user", Val.vObj [("name", Val.vStr "Alice")])])).destroyed
      = false ∧
    (createEventState (Val.vObj [("user", Val.vObj [("name", Val.vStr "Alice")])])).batching
      = false ∧
    "user.name" ≠ "" ∧
    (setOp (createEventState (Val.vObj [("user", Val.vObj [("name", Val.vStr "Alice")])]))
      (some "user.name") (Val.vStr "Bob")).err = none ∧
    getOp ((setOp (createEventState
        (Val.vObj [("user", Val.vObj [("name", Val.vStr "Alice")])]))
      (some "user.name") (Val.vStr "Bob")).store) (some "user.name") = .ok (Val.vStr "Bob") :=
  ⟨rfl, rfl, by decide, rfl, set_get_roundtrip _ _ _ rfl rfl (by decide) rfl⟩

/-! ### Claim C1: notification groups and their order -/

/-- The notification groups of a write at `path`, stated from the spec:
the exact path, then one wildcard key per ancestor prefix from the
outermost single-segment prefix inward, then the global key — always
ending in the global key, even for single-segment paths. -/
def groupKeys (path : String) : List String :=
  [path] ++ (prefixAcc "" ((splitDots path).dropLast)).map (· ++ ".*") ++ ["*"]

theorem notifySeq_eq_flatMap (m : List (String × List Nat)) (path : String) (v : Val)
    (anc : List String) :
    notifySeq m path v anc =
      (([path] ++ (prefixAcc "" anc).map (· ++ ".*") ++ ["*"]).flatMap
        (fun k => fireGroup m k v)) := by
  cases anc with
  | nil => simp [notifySeq, prefixAcc]
  | cons a rest =>
      simp only [notifySeq, List.isEmpty_cons, Bool.false_eq_true, if_false,
        List.flatMap_append, List.flatMap_cons, List.flatMap_nil, List.flatMap_map,
        List.append_nil, Function.comp]

/-- C1: a completing, non-batched `set(p, v)` on a live store fires, in
order, the exact-path group, then one wildcard group per ancestor prefix
from the outermost prefix inward, then the global group: with N ancestor
segments that is 1 + N + 1 groups, the last of which is the global `*`
group even when N = 0. -/
theorem set_notifies_groups (s : Store) (p : String) (v : Val) (s' : Store)
    (f : List Fired) (hd : s.destroyed = false) (hb : s.batching = false)
    (hp : p ≠ "") (hw : writeAndNotifyOp s p v = some (s', f)) :
    (setOp s (some p) v).fired =
      (groupKeys p).flatMap (fun k => fireGroup s.listeners k v) ∧
    (groupKeys p).length = ((splitDots p).dropLast).length + 2 ∧
    (groupKeys p).head? = some p ∧
    (groupKeys p).getLast? = some "*" := by
  have hp' : (p == "") = false := by simpa using hp
  have hset : setOp s (some p) v = ⟨s', f, none, v⟩ := by
    simp [setOp, hd, hp', hb, hw]
  refine ⟨?_, ?_, ?_, ?_⟩
  · rw [hset]
    simp only [writeAndNotifyOp] at hw
    cases hwt : writeTree s.state ((splitDots p).dropLast)
        ((splitDots p).getLastD "") v with
    | none => rw [hwt] at hw; exact absurd hw (by simp)
    | some st' =>
        rw [hwt] at hw
        simp only [Option.some.injEq, Prod.mk.injEq] at hw
        obtain ⟨_, hf⟩ := hw
        rw [hd] at hf
        simp only [Bool.false_eq_true, if_false] at hf
        rw [← hf, groupKeys]
        exact notifySeq_eq_flatMap s.listeners p v ((splitDots p).dropLast)
  · simp [groupKeys, prefixAcc_length]
  · simp [groupKeys]
  · simp only [groupKeys, List.append_assoc]
    rw [← List.append_assoc]
    exact List.getLast?_concat _

/-- Witness for C1 at a two-segment path with listeners of every kind
registered. -/
theorem set_notifies_groups_witness :
    (let s : Store :=
      { createEventState (Val.vObj [("user", Val.vObj [("name", Val.vStr "Alice")])]) with
        listeners := [("user.name", [1]), ("user.*", [2]), ("*", [3])] }
     s.destroyed = false ∧ s.batching = false ∧ "user.name" ≠ "" ∧
     ∃ s' f, writeAndNotifyOp s "user.name" (Val.vStr "Bob") = some (s', f) ∧
     ((setOp s (some "user.name") (Val.vStr "Bob")).fired =
        (groupKeys "user.name").flatMap
          (fun k => fireGroup s.listeners k (Val.vStr "Bob")) ∧
      (groupKeys "user.name").length = ((splitDots "user.name").dropLast).length + 2 ∧
      (groupKeys "user.name").head? = some "user.name" ∧
      (groupKeys "user.name").getLast? = some "*")) := by
  refine ⟨rfl, rfl, by decide, ?_⟩
  refine ⟨_, _, rfl, ?_⟩
  exact set_notifies_groups _ _ _ _ _ rfl rfl (by decide) rfl

/-! ### Claim C3: intermediate creation during `set` -/

theorem writeTree_fresh (rest : List String) : ∀ key v, ∃ cfs,
    writeTree (Val.vObj []) rest key v = some (.vObj cfs) := by
  induction rest with
  | nil => intro key v; exact ⟨setField [] key v, rfl⟩
  | cons p r ih =>
      intro key v
      obtain ⟨cfs, hc⟩ := ih key v
      refine ⟨setField [] p (.vObj cfs), ?_⟩
      simp [writeTree, jsGetProp, getField, Val.falsy, hc]

theorem writeTree_nonobj (child : Val) (rest : List String) (key : String) (v : Val)
    (h : child.isObj = false) : writeTree child rest key v = none := by
  cases rest with
  | nil => cases child <;> simp_all [writeTree, Val.isObj]
  | cons p r => cases child <;> simp_all [writeTree, Val.isObj, jsGetProp, Val.falsy]

theorem writeTree000_fresh (rest : List String) : ∀ key v, ∃ cfs,
    writeTree000 (Val.vObj []) rest key v = .vObj cfs ∧
    getPath (.vObj cfs) (rest ++ [key]) = v := by
  induction rest with
  | nil =>
      intro key v
      refine ⟨setField [] key v, rfl, ?_⟩
      simp [getPath, jsGetProp]
  | cons p r ih =>
      intro key v
      obtain ⟨cfs, hc, hg⟩ := ih key v
      refine ⟨setField [] p (.vObj cfs), ?_, ?_⟩
      · simp [writeTree000, getField, Val.falsy, hc]
      · simp [getPath, jsGetProp, hg]

/-- Counterexample to C3 as stated: in the part_015 store, a truthy
non-object intermediate is NOT overwritten with an empty mapping. On
state `{a: "hello"}`, C3 predicts `set("a.b", 1)` replaces `"hello"`
with `{}` and then assigns, so `get("a.b")` would give `1`; the code
instead leaves the state untouched and throws (strict-mode TypeError on
assigning a property of a primitive), so `get("a")` still gives
`"hello"` and `get("a.b")` gives `undefined`. -/
theorem set_truthy_primitive_counterexample :
    setOp (createEventState (Val.vObj [("a", Val.vStr "hello")]))
        (some "a.b") (Val.vNum 1) =
      ⟨createEventState (Val.vObj [("a", Val.vStr "hello")]), [],
        some .typeError, .vUndefined⟩ ∧
    getOp (setOp (createEventState (Val.vObj [("a", Val.vStr "hello")]))
        (some "a.b") (Val.vNum 1)).store (some "a") = .ok (Val.vStr "hello") ∧
    getOp (setOp (createEventState (Val.vObj [("a", Val.vStr "hello")]))
        (some "a.b") (Val.vNum 1)).store (some "a.b") = .ok Val.vUndefined :=
  ⟨rfl, rfl, rfl⟩

/-- C3 amended: during a part_015 `set` with a multi-segment path, an
intermediate whose current value is missing or falsy is overwritten with
a fresh empty mapping before descending and the final segment is then
assigned `v`; a truthy non-object intermediate is not replaced — the
write throws and changes nothing. (The part_000 variant replaces any
non-object intermediate, truthy primitives included, as the claim
originally stated.) -/
theorem set_path_creation_amended :
    (∀ (fs : List (String × Val)) (a : String) (rest : List String) (key : String)
        (v : Val), (getField fs a).falsy = true →
        ∃ st', writeTree (Val.vObj fs) (a :: rest) key v = some st' ∧
          getPath st' ((a :: rest) ++ [key]) = v ∧
          (getPath st' [a]).isObj = true) ∧
    (∀ (fs : List (String × Val)) (a : String) (rest : List String) (key : String)
        (v : Val), (getField fs a).falsy = false → (getField fs a).isObj = false →
        writeTree (Val.vObj fs) (a :: rest) key v = none) ∧
    (∀ (fs : List (String × Val)) (a : String) (rest : List String) (key : String)
        (v : Val), (getField fs a).isObj = false →
        getPath (writeTree000 (Val.vObj fs) (a :: rest) key v) ((a :: rest) ++ [key]) = v ∧
        (getPath (writeTree000 (Val.vObj fs) (a :: rest) key v) [a]).isObj = true) := by
  refine ⟨?_, ?_, ?_⟩
  · intro fs a rest key v hfal
    obtain ⟨cfs, hc⟩ := writeTree_fresh rest key v
    refine ⟨.vObj (setField fs a (.vObj cfs)), ?_, ?_, ?_⟩
    · simp [writeTree, jsGetProp, hfal, hc]
    · have hrt := getPath_writeTree rest (Val.vObj []) (.vObj cfs) key v hc
      simp [getPath, jsGetProp, hrt]
    · simp [getPath, jsGetProp, Val.isObj]
  · intro fs a rest key v hfal hobj
    have hn := writeTree_nonobj (getField fs a) rest key v hobj
    simp [writeTree, jsGetProp, hfal, hn]
  · intro fs a rest key v hobj
    obtain ⟨cfs, hc, hg⟩ := writeTree000_fresh rest key v
    refine ⟨?_, ?_⟩ <;>
      cases hx : getField fs a <;>
        simp_all [writeTree000, Val.falsy, Val.isObj, getPath, jsGetProp]

/-- Witness for the amended C3, at the inputs of the counterexample:
a falsy intermediate (`0`), a truthy-primitive intermediate
(`"hello"`) in part_015, and the same truthy primitive in part_000. -/
theorem set_path_creation_amended_witness :
    ((getField [("a", Val.vNum 0)] "a").falsy = true ∧
     ∃ st', writeTree (Val.vObj [("a", Val.vNum 0)]) ["a"] "b" (Val.vNum 1) = some st' ∧
       getPath st' (["a"] ++ ["b"]) = Val.vNum 1 ∧ (getPath st' ["a"]).isObj = true) ∧
    ((getField [("a", Val.vStr "hello")] "a").falsy = false ∧
     (getField [("a", Val.vStr "hello")] "a").isObj = false ∧
     writeTree (Val.vObj [("a", Val.vStr "hello")]) ["a"] "b" (Val.vNum 1) = none) ∧
    ((getField [("a", Val.vStr "hello")] "a").isObj = false ∧
     getPath (writeTree000 (Val.vObj [("a", Val.vStr "hello")]) ["a"] "b" (Val.vNum 1))
       (["a"] ++ ["b"]) = Val.vNum 1) :=
  ⟨⟨rfl, set_path_creation_amended.1 [("a", Val.vNum 0)] "a" [] "b" (Val.vNum 1) rfl⟩,
   ⟨rfl, rfl, set_path_creation_amended.2.1 [("a", Val.vStr "hello")] "a" [] "b"
      (Val.vNum 1) rfl rfl⟩,
   ⟨rfl, (set_path_creation_amended.2.2 [("a", Val.vStr "hello")] "a" [] "b"
      (Val.vNum 1) rfl).1⟩⟩

/-! ### Claim C10: unsubscribe never throws -/

/-- C10: the closure returned by `subscribe` never throws: it always
returns (`some`), a second invocation is a harmless no-op returning the
store unchanged, and invoking it after `destroy()` has cleared the
listener table is also a harmless no-op (the optional chaining guards
the missing entry). -/
theorem unsubscribe_never_throws (s : Store) (k : String) (h : Nat)
    (hd : s.destroyed = false) (hnd : ∀ e ∈ s.listeners, e.2.Nodup) :
    (∃ s', unsubRun s k h = some s' ∧ unsubRun s' k h = some s') ∧
    unsubRun (destroyOp s) k h = some (destroyOp s) := by
  constructor
  · cases hm : mapGet s.listeners k with
    | none =>
        refine ⟨s, ?_, ?_⟩ <;> simp [unsubRun, hm]
    | some hs =>
        have hnodup : hs.Nodup := hnd (k, hs) (mapGet_mem _ _ _ hm)
        have herase : (hs.erase h).erase h = hs.erase h :=
          List.erase_of_not_mem hnodup.not_mem_erase
        refine ⟨{ s with listeners := mapSet s.listeners k (hs.erase h) }, ?_, ?_⟩
        · simp [unsubRun, hm]
        · simp only [unsubRun, mapGet_mapSet_self, herase, mapSet_mapSet_self]
  · have hld : (destroyOp s).listeners = [] := by simp [destroyOp, hd]
    simp [unsubRun, hld, mapGet]

/-- Witness for C10 on a fresh store. -/
theorem unsubscribe_never_throws_witness :
    (createEventState (Val.vObj [])).destroyed = false ∧
    (∀ e ∈ (createEventState (Val.vObj [])).listeners, e.2.Nodup) ∧
    ((∃ s', unsubRun (createEventState (Val.vObj [])) "count" 7 = some s' ∧
        unsubRun s' "count" 7 = some s') ∧
     unsubRun (destroyOp (createEventState (Val.vObj []))) "count" 7 =
       some (destroyOp (createEventState (Val.vObj [])))) :=
  ⟨rfl, by simp [createEventState],
   unsubscribe_never_throws (createEventState (Val.vObj [])) "count" 7 rfl
     (by simp [createEventState])⟩

/-! ### Claim C9: duplicate subscription stored once -/

def countH (h : Nat) : List Fired → Nat
  | [] => 0
  | (_, h', _) :: rest => (if h' == h then 1 else 0) + countH h rest

theorem countH_append (h : Nat) (l1 l2 : List Fired) :
    countH h (l1 ++ l2) = countH h l1 + countH h l2 := by
  induction l1 with
  | nil => simp [countH]
  | cons e rest ih =>
      obtain ⟨a, b, c⟩ := e
      simp [countH, ih]
      omega

theorem countH_fireGroup (m : List (String × List Nat)) (k : String) (v : Val)
    (h : Nat) : countH h (fireGroup m k v) =
      (match mapGet m k with | some hs => hs.count h | none => 0) := by
  unfold fireGroup
  cases mapGet m k with
  | none => simp [countH]
  | some hs =>
      simp only
      induction hs with
      | nil => simp [countH]
      | cons a rest ih =>
          simp only [List.map_cons, countH, ih, List.count_cons]
          by_cases ha : (a == h) = true
          · simp only [ha, if_true]
            exact Nat.add_comm 1 _
          · have ha' : (a == h) = false := by simpa using ha
            simp only [ha', Bool.false_eq_true, if_false]
            exact (Nat.zero_add _).trans (Nat.add_zero _).symm

theorem mapSet_get_self {α : Type} (m : List (String × α)) (k : String) (x : α)
    (h : mapGet m k = some x) : mapSet m k x = m := by
  induction m with
  | nil => simp [mapGet] at h
  | cons e rest ih =>
      obtain ⟨k', v'⟩ := e
      by_cases h0 : (k' == k) = true
      · have hk : k' = k := by simpa using h0
        subst hk
        simp only [mapGet, beq_self_eq_true, if_true, Option.some.injEq] at h
        simp [mapSet, h]
      · have h0' : (k' == k) = false := by simpa using h0
        simp only [mapGet, h0', Bool.false_eq_true, if_false] at h
        simp [mapSet, h0', ih h]

theorem mem_mapSet {α : Type} (m : List (String × α)) (k : String) (v : α) :
    ∀ e, e ∈ mapSet m k v → e = (k, v) ∨ e ∈ m := by
  induction m with
  | nil => intro e he; simpa [mapSet] using he
  | cons e0 rest ih =>
      obtain ⟨k', v'⟩ := e0
      intro e he
      by_cases h0 : (k' == k) = true
      · have hk : k' = k := by simpa using h0
        subst hk
        simp only [mapSet, beq_self_eq_true, if_true] at he
        rcases List.mem_cons.mp he with he | he
        · exact Or.inl he
        · exact Or.inr (List.mem_cons_of_mem _ he)
      · have h0' : (k' == k) = false := by simpa using h0
        simp only [mapSet, h0', Bool.false_eq_true, if_false] at he
        rcases List.mem_cons.mp he with he | he
        · exact Or.inr (he ▸ List.mem_cons_self _ _)
        · rcases ih e he with h1 | h1
          · exact Or.inl h1
          · exact Or.inr (List.mem_cons_of_mem _ h1)

/-- Handlers found under a key that is not the handler\'s own
subscription key contribute no invocation of that handler, provided the
handler is registered nowhere in the base table. -/
theorem countH_fireGroup_absent (m : List (String × List Nat)) (k0 : String) (v : Val)
    (h : Nat) (hno : ∀ e ∈ m, h ∉ e.2) : countH h (fireGroup m k0 v) = 0 := by
  rw [countH_fireGroup]
  cases hg : mapGet m k0 with
  | none => rfl
  | some hs =>
      simp only
      exact List.count_eq_zero.mpr (hno (k0, hs) (mapGet_mem _ _ _ hg))

/-- C9: subscribing the identical handler twice under the same key
stores it only once (the second `subscribe` leaves the listener table
unchanged), the notification pass of a write to that exact path invokes
it exactly once, and a single call to either returned unsubscribe
closure removes the registration entirely, after which the pass invokes
it zero times. Stated for a key that is neither the global key nor one
of its own ancestor wildcard keys, and a handler not yet registered
anywhere. -/
theorem subscribe_dup_stored_once (s : Store) (k : String) (h : Nat) (v : Val)
    (hd : s.destroyed = false) (hk : k ≠ "")
    (hno : ∀ e ∈ s.listeners, h ∉ e.2)
    (hstar : k ≠ "*")
    (hwild : ∀ pre ∈ prefixAcc "" ((splitDots k).dropLast), k ≠ pre ++ ".*") :
    ∃ s2, subscribeOp s k h = .ok s2 ∧ subscribeOp s2 k h = .ok s2 ∧
      countH h (notifySeq s2.listeners k v ((splitDots k).dropLast)) = 1 ∧
      ∃ s3, unsubRun s2 k h = some s3 ∧ (∀ e ∈ s3.listeners, h ∉ e.2) ∧
        countH h (notifySeq s3.listeners k v ((splitDots k).dropLast)) = 0 := by
  have hk' : (k == "") = false := by simpa using hk
  have huni : ∃ hs0, h ∉ hs0 ∧
      subscribeOp s k h = .ok { s with listeners := mapSet s.listeners k (hs0 ++ [h]) } := by
    cases hm : mapGet s.listeners k with
    | none =>
        refine ⟨[], by simp, ?_⟩
        simp [subscribeOp, hd, hk', hm, setAdd]
    | some hs =>
        have hnx : h ∉ hs := hno (k, hs) (mapGet_mem _ _ _ hm)
        have hadd : setAdd hs h = hs ++ [h] := by simp [setAdd, hnx]
        refine ⟨hs, hnx, ?_⟩
        simp [subscribeOp, hd, hk', hm, hadd]
  obtain ⟨hs0, hh0, hsubeq⟩ := huni
  set m2 := mapSet s.listeners k (hs0 ++ [h]) with hm2
  have hget : mapGet m2 k = some (hs0 ++ [h]) := mapGet_mapSet_self ..
  have hget_ne : ∀ k0, k0 ≠ k → mapGet m2 k0 = mapGet s.listeners k0 := by
    intro k0 hne
    exact mapGet_mapSet_ne s.listeners k k0 (hs0 ++ [h]) (fun he => hne he.symm)
  have habsent : ∀ k0, k0 ≠ k → countH h (fireGroup m2 k0 v) = 0 := by
    intro k0 hne
    rw [countH_fireGroup, hget_ne k0 hne]
    cases hg : mapGet s.listeners k0 with
    | none => rfl
    | some hs =>
        simp only
        exact List.count_eq_zero.mpr (hno (k0, hs) (mapGet_mem _ _ _ hg))
  refine ⟨{ s with listeners := m2 }, hsubeq, ?_, ?_, ?_⟩
  · -- second subscribe is a no-op on the table
    have hadd : setAdd (hs0 ++ [h]) h = hs0 ++ [h] := by simp [setAdd]
    have hms : mapSet m2 k (hs0 ++ [h]) = m2 := mapSet_get_self _ _ _ hget
    simp [subscribeOp, hd, hk', hget, hadd, hms]
  · -- the notification pass fires h exactly once
    have hexact : countH h (fireGroup m2 k v) = 1 := by
      rw [countH_fireGroup, hget]
      simp [List.count_append, List.count_eq_zero.mpr hh0]
    have hmid : countH h (if ((splitDots k).dropLast).isEmpty then []
        else (prefixAcc "" ((splitDots k).dropLast)).flatMap
          (fun pre => fireGroup m2 (pre ++ ".*") v)) = 0 := by
      split
      · simp [countH]
      · generalize hpa : prefixAcc "" ((splitDots k).dropLast) = pres
        have hub : ∀ pre ∈ pres, countH h (fireGroup m2 (pre ++ ".*") v) = 0 := by
          intro pre hpre
          exact habsent _ (fun he => hwild pre (hpa ▸ hpre) he.symm)
        clear hpa
        induction pres with
        | nil => simp [countH]
        | cons a rest ih =>
            rw [List.flatMap_cons, countH_append,
              hub a (List.mem_cons_self _ _), ih (fun pre hp => hub pre (List.mem_cons_of_mem _ hp))]
    have hglob : countH h (fireGroup m2 "*" v) = 0 :=
      habsent _ (fun he => hstar he.symm)
    unfold notifySeq
    rw [countH_append, countH_append, hexact, hmid, hglob]
  · -- one unsubscribe call removes the handler entirely
    have herase : (hs0 ++ [h]).erase h = hs0 := by
      rw [List.erase_append_right _ hh0]; simp
    have hms : mapSet m2 k ((hs0 ++ [h]).erase h) = mapSet s.listeners k hs0 := by
      rw [herase, hm2, mapSet_mapSet_self]
    set m3 := mapSet s.listeners k hs0 with hm3
    have hget3 : mapGet m3 k = some hs0 := mapGet_mapSet_self ..
    have hget3_ne : ∀ k0, k0 ≠ k → mapGet m3 k0 = mapGet s.listeners k0 := by
      intro k0 hne
      exact mapGet_mapSet_ne s.listeners k k0 hs0 (fun he => hne he.symm)
    have habsent3 : ∀ k0, countH h (fireGroup m3 k0 v) = 0 := by
      intro k0
      by_cases hne : k0 = k
      · subst hne
        rw [countH_fireGroup, hget3]
        simp [List.count_eq_zero.mpr hh0]
      · rw [countH_fireGroup, hget3_ne k0 hne]
        cases hg : mapGet s.listeners k0 with
        | none => rfl
        | some hs =>
            simp only
            exact List.count_eq_zero.mpr (hno (k0, hs) (mapGet_mem _ _ _ hg))
    refine ⟨{ s with listeners := m3 }, ?_, ?_, ?_⟩
    · simp only [unsubRun, hget, hms]
    · intro e he
      rcases mem_mapSet s.listeners k hs0 e he with he | he
      · subst he; exact hh0
      · exact hno e he
    · have hmid : countH h (if ((splitDots k).dropLast).isEmpty then []
          else (prefixAcc "" ((splitDots k).dropLast)).flatMap
            (fun pre => fireGroup m3 (pre ++ ".*") v)) = 0 := by
        split
        · simp [countH]
        · generalize prefixAcc "" ((splitDots k).dropLast) = pres
          induction pres with
          | nil => simp [countH]
          | cons a rest ih =>
              rw [List.flatMap_cons, countH_append, habsent3 _, ih]
      unfold notifySeq
      rw [countH_append, countH_append, habsent3 k, hmid, habsent3 "*"]

/-- Witness for C9: subscribing handler 7 twice to `"count"` on a fresh
store. -/
theorem subscribe_dup_stored_once_witness :
    (createEventState (Val.vObj [("count", Val.vNum 0)])).destroyed = false ∧
    "count" ≠ "" ∧
    (∀ e ∈ (createEventState (Val.vObj [("count", Val.vNum 0)])).listeners, 7 ∉ e.2) ∧
    "count" ≠ "*" ∧
    (∀ pre ∈ prefixAcc "" ((splitDots "count").dropLast), "count" ≠ pre ++ ".*") ∧
    ∃ s2, subscribeOp (createEventState (Val.vObj [("count", Val.vNum 0)])) "count" 7
        = .ok s2 ∧
      subscribeOp s2 "count" 7 = .ok s2 ∧
      countH 7 (notifySeq s2.listeners "count" (Val.vNum 5)
        ((splitDots "count").dropLast)) = 1 ∧
      ∃ s3, unsubRun s2 "count" 7 = some s3 ∧ (∀ e ∈ s3.listeners, 7 ∉ e.2) ∧
        countH 7 (notifySeq s3.listeners "count" (Val.vNum 5)
          ((splitDots "count").dropLast)) = 0 :=
  ⟨rfl, by decide, by simp [createEventState], by decide,
   by simp [splitDots, splitDotsAux, prefixAcc],
   subscribe_dup_stored_once (createEventState (Val.vObj [("count", Val.vNum 0)]))
     "count" 7 (Val.vNum 5) rfl (by decide) (by simp [createEventState]) (by decide)
     (by simp [splitDots, splitDotsAux, prefixAcc])⟩

/-! ### Claims C4/C8: batching -/

mutual
/-- A batch body with no thrown exception. -/
def actOk : Act → Bool
  | .aset _ _ => true
  | .athrow => false
  | .abatch body => actsOk body
def actsOk : List Act → Bool
  | [] => true
  | a :: rest => actOk a && actsOk rest
end

mutual
/-- The `(path, value)` writes a script performs, in program order,
nested batches flattened, falsy-path no-ops dropped. -/
def flatSets : Act → List (String × Val)
  | .aset p v => if p == "" then [] else [(p, v)]
  | .athrow => []
  | .abatch body => flatSetsL body
def flatSetsL : List Act → List (String × Val)
  | [] => []
  | a :: rest => flatSets a ++ flatSetsL rest
end

/-- Fold the writes into a `Map.set` buffer. -/
def bufFold (m : List (String × Val)) (l : List (String × Val)) : List (String × Val) :=
  l.foldl (fun acc e => mapSet acc e.1 e.2) m

mutual
/-- While batching, a throw-free script only accumulates its writes
into the buffer, in program order: no tree mutation, no notification,
and a nested `batch` call never flushes. -/
theorem runAct_batching (a : Act) : ∀ s : Store, s.destroyed = false →
    s.batching = true → actOk a = true →
    runAct s a = ({ s with batchBuffer := bufFold s.batchBuffer (flatSets a) }, [], none) := by
  cases a with
  | athrow =>
      rintro s _ _ hok
      exact absurd hok (by simp [actOk])
  | aset p v =>
      rintro ⟨st, ls, ao, des, bat, buf, ab, op⟩ hd hb _
      obtain rfl : des = false := hd
      obtain rfl : bat = true := hb
      by_cases hp : (p == "") = true
      · have hp0 : p = "" := by simpa using hp
        subst hp0
        rfl
      · have hp' : (p == "") = false := by simpa using hp
        simp only [runAct, setOp, flatSets, bufFold, hp', Bool.false_eq_true, if_false,
          if_true, List.foldl_cons, List.foldl_nil]
  | abatch body =>
      rintro ⟨st, ls, ao, des, bat, buf, ab, op⟩ hd hb hok
      obtain rfl : des = false := hd
      obtain rfl : bat = true := hb
      have hok' : actsOk body = true := by simpa [actOk] using hok
      have hrun := runActs_batching body ⟨st, ls, ao, false, true, buf, ab, op⟩ rfl rfl hok'
      show ({ (runActs ⟨st, ls, ao, false, true, buf, ab, op⟩ body).1 with batching := true },
        (runActs ⟨st, ls, ao, false, true, buf, ab, op⟩ body).2.1,
        (runActs ⟨st, ls, ao, false, true, buf, ab, op⟩ body).2.2) = _
      rw [hrun]
      rfl

theorem runActs_batching (l : List Act) : ∀ s : Store, s.destroyed = false →
    s.batching = true → actsOk l = true →
    runActs s l = ({ s with batchBuffer := bufFold s.batchBuffer (flatSetsL l) }, [], none) := by
  cases l with
  | nil =>
      rintro ⟨st, ls, ao, des, bat, buf, ab, op⟩ _ _ _
      rfl
  | cons a rest =>
      rintro ⟨st, ls, ao, des, bat, buf, ab, op⟩ hd hb hok
      obtain rfl : des = false := hd
      obtain rfl : bat = true := hb
      have hok1 : actOk a = true := by
        have h0 := hok
        simp only [actsOk, Bool.and_eq_true] at h0
        exact h0.1
      have hok2 : actsOk rest = true := by
        have h0 := hok
        simp only [actsOk, Bool.and_eq_true] at h0
        exact h0.2
      have h1 := runAct_batching a ⟨st, ls, ao, false, true, buf, ab, op⟩ rfl rfl hok1
      have h2 := runActs_batching rest
        ⟨st, ls, ao, false, true, bufFold buf (flatSets a), ab, op⟩ rfl rfl hok2
      show (let r := runAct ⟨st, ls, ao, false, true, buf, ab, op⟩ a
            match r.2.2 with
            | some e => (r.1, r.2.1, some e)
            | none =>
                let r2 := runActs r.1 rest
                (r2.1, r.2.1 ++ r2.2.1, r2.2.2)) = _
      rw [h1]
      simp only [h2, List.nil_append]
      have hfold : bufFold (bufFold buf (flatSets a)) (flatSetsL rest) =
          bufFold buf (flatSets a ++ flatSetsL rest) := by
        simp [bufFold, List.foldl_append]
      rw [hfold]
      rfl
end

/-- The value of the last write to `p` in a write list, stated from the
spec's last-write-wins wording. -/
def lastVal : List (String × Val) → String → Option Val
  | [], _ => none
  | (k', v') :: rest, k =>
      match lastVal rest k with
      | some v => some v
      | none => if k' == k then some v' else none

/-- First-occurrence order of keys, skipping keys already seen, stated
from the spec's path-insertion-order wording. -/
def firstOccAux (seen : List String) : List String → List String
  | [] => []
  | k :: rest =>
      if k ∈ seen then firstOccAux seen rest
      else k :: firstOccAux (k :: seen) rest

def firstOccKeys (l : List String) : List String := firstOccAux [] l

theorem mapGet_eq_none_iff {α : Type} (m : List (String × α)) (k : String) :
    mapGet m k = none ↔ k ∉ m.map Prod.fst := by
  induction m with
  | nil => simp [mapGet]
  | cons e rest ih =>
      obtain ⟨k', v'⟩ := e
      by_cases h : (k' == k) = true
      · have hk : k' = k := by simpa using h
        subst hk
        simp [mapGet]
      · have h' : (k' == k) = false := by simpa using h
        have hne : k' ≠ k := by simpa using h
        simp only [mapGet, h', Bool.false_eq_true, if_false, List.map_cons,
          List.mem_cons]
        rw [ih]
        constructor
        · intro hnm hc
          rcases hc with hc | hc
          · exact hne hc.symm
          · exact hnm hc
        · intro hnc hm
          exact hnc (Or.inr hm)

theorem keys_mapSet_mem {α : Type} (m : List (String × α)) (k : String) (v : α)
    (h : k ∈ m.map Prod.fst) : (mapSet m k v).map Prod.fst = m.map Prod.fst := by
  induction m with
  | nil => simp at h
  | cons e rest ih =>
      obtain ⟨k', v'⟩ := e
      by_cases h0 : (k' == k) = true
      · simp [mapSet, h0]
      · have h0' : (k' == k) = false := by simpa using h0
        have hne : k' ≠ k := by simpa using h0
        have hmem : k ∈ rest.map Prod.fst := by
          simp only [List.map_cons, List.mem_cons] at h
          rcases h with h1 | h1
          · exact absurd h1.symm hne
          · exact h1
        simp [mapSet, h0', ih hmem]

theorem keys_mapSet_new {α : Type} (m : List (String × α)) (k : String) (v : α)
    (h : k ∉ m.map Prod.fst) : (mapSet m k v).map Prod.fst = m.map Prod.fst ++ [k] := by
  induction m with
  | nil => simp [mapSet]
  | cons e rest ih =>
      obtain ⟨k', v'⟩ := e
      have hne : k ≠ k' := by
        intro he; exact h (by simp [he])
      have h0' : (k' == k) = false := by simpa using fun he : k' = k => hne he.symm
      have hrest : k ∉ rest.map Prod.fst := fun hm => h (by simp [hm])
      simp [mapSet, h0', ih hrest]

theorem firstOccAux_congr (l : List String) : ∀ s1 s2 : List String,
    (∀ x, x ∈ s1 ↔ x ∈ s2) → firstOccAux s1 l = firstOccAux s2 l := by
  induction l with
  | nil => intro s1 s2 _; rfl
  | cons k rest ih =>
      intro s1 s2 hiff
      by_cases hk : k ∈ s1
      · have hk2 : k ∈ s2 := (hiff k).mp hk
        simp [firstOccAux, hk, hk2, ih s1 s2 hiff]
      · have hk2 : k ∉ s2 := fun h => hk ((hiff k).mpr h)
        simp only [firstOccAux, hk, hk2, if_false]
        rw [ih (k :: s1) (k :: s2) (by intro x; simp [hiff x])]

theorem keys_bufFold (l : List (String × Val)) : ∀ m : List (String × Val),
    (bufFold m l).map Prod.fst =
      m.map Prod.fst ++ firstOccAux (m.map Prod.fst) (l.map Prod.fst) := by
  induction l with
  | nil => intro m; simp [bufFold, firstOccAux]
  | cons e rest ih =>
      intro m
      obtain ⟨k, v⟩ := e
      have hstep : bufFold m ((k, v) :: rest) = bufFold (mapSet m k v) rest := rfl
      rw [hstep, ih (mapSet m k v)]
      by_cases hk : k ∈ m.map Prod.fst
      · rw [keys_mapSet_mem m k v hk]
        simp [firstOccAux, hk]
      · rw [keys_mapSet_new m k v hk]
        simp only [List.map_cons, firstOccAux, hk, if_false]
        rw [firstOccAux_congr (rest.map Prod.fst) (m.map Prod.fst ++ [k])
          (k :: m.map Prod.fst) (by intro x; simp; tauto)]
        simp

theorem firstOccAux_fresh (l : List String) : ∀ seen : List String,
    (∀ x ∈ firstOccAux seen l, x ∉ seen) ∧ (firstOccAux seen l).Nodup := by
  induction l with
  | nil => intro seen; simp [firstOccAux]
  | cons k rest ih =>
      intro seen
      by_cases hk : k ∈ seen
      · simpa [firstOccAux, hk] using ih seen
      · obtain ⟨hf, hnd⟩ := ih (k :: seen)
        constructor
        · intro x hx
          simp only [firstOccAux, hk, if_false] at hx
          rcases List.mem_cons.mp hx with hx | hx
          · subst hx; exact hk
          · intro hxs
            exact hf x hx (List.mem_cons_of_mem _ hxs)
        · simp only [firstOccAux, hk, if_false]
          refine List.nodup_cons.mpr ⟨?_, hnd⟩
          intro hkm
          exact hf k hkm (List.mem_cons_self _ _)

theorem mapGet_bufFold (l : List (String × Val)) : ∀ (m : List (String × Val)) (p : String),
    mapGet (bufFold m l) p =
      (match lastVal l p with | some v => some v | none => mapGet m p) := by
  induction l with
  | nil => intro m p; simp [bufFold, lastVal]
  | cons e rest ih =>
      intro m p
      obtain ⟨k, v⟩ := e
      have hstep : bufFold m ((k, v) :: rest) = bufFold (mapSet m k v) rest := rfl
      rw [hstep, ih (mapSet m k v) p]
      cases hl : lastVal rest p with
      | some w => simp [lastVal, hl]
      | none =>
          simp only [lastVal, hl]
          by_cases hkp : (k == p) = true
          · have : k = p := by simpa using hkp
            subst this
            simp [mapGet_mapSet_self]
          · have hkp' : (k == p) = false := by simpa using hkp
            have hne : k ≠ p := by simpa using hkp
            simp [hkp', mapGet_mapSet_ne m k p v hne]

theorem writeAndNotifyOp_fired (s : Store) (p : String) (v : Val) (s' : Store)
    (f : List Fired) (hd : s.destroyed = false)
    (hw : writeAndNotifyOp s p v = some (s', f)) :
    f = notifySeq s.listeners p v ((splitDots p).dropLast) := by
  simp only [writeAndNotifyOp] at hw
  cases hwt : writeTree s.state ((splitDots p).dropLast) ((splitDots p).getLastD "") v with
  | none => rw [hwt] at hw; exact absurd hw (by simp)
  | some st' =>
      rw [hwt] at hw
      simp only [Option.some.injEq, Prod.mk.injEq] at hw
      obtain ⟨_, hf⟩ := hw
      rw [hd] at hf
      simp only [Bool.false_eq_true, if_false] at hf
      exact hf.symm

/-- A successful flush writes each buffered entry through the real
`writeAndNotify`, in buffer order, firing one full notification round
per entry against the (unchanged) listener table. -/
theorem flushEntries_spec (l : List (String × Val)) : ∀ s : Store, s.destroyed = false →
    (flushEntries s l).2.2 = none →
    (flushEntries s l).2.1 =
      l.flatMap (fun e => notifySeq s.listeners e.1 e.2 ((splitDots e.1).dropLast)) ∧
    (flushEntries s l).1.listeners = s.listeners ∧
    (flushEntries s l).1.destroyed = false ∧
    (flushEntries s l).1.batching = s.batching ∧
    (flushEntries s l).1.batchBuffer = s.batchBuffer := by
  induction l with
  | nil =>
      intro s hd _
      exact ⟨by simp [flushEntries], rfl, hd, rfl, rfl⟩
  | cons e rest ih =>
      intro s hd hok
      obtain ⟨p, v⟩ := e
      cases hw : writeAndNotifyOp s p v with
      | none =>
          exfalso
          simp only [flushEntries, hw] at hok
          exact Option.some_ne_none _ hok
      | some res =>
          obtain ⟨s1, f1⟩ := res
          have hfields := writeAndNotifyOp_fields s p v s1 f1 hw
          have hd1 : s1.destroyed = false := by rw [hfields.2.1, hd]
          have hstep : flushEntries s ((p, v) :: rest) =
              ((flushEntries s1 rest).1, f1 ++ (flushEntries s1 rest).2.1,
               (flushEntries s1 rest).2.2) := by
            simp [flushEntries, hw]
          have hok1 : (flushEntries s1 rest).2.2 = none := by
            rw [hstep] at hok
            exact hok
          obtain ⟨hfr, hls, hds, hbt, hbb⟩ := ih s1 hd1 hok1
          have hf1 : f1 = notifySeq s.listeners p v ((splitDots p).dropLast) :=
            writeAndNotifyOp_fired s p v s1 f1 hd hw
          rw [hstep]
          refine ⟨?_, ?_, ?_, ?_, ?_⟩
          · simp only [List.flatMap_cons]
            rw [hfr, hf1, hfields.1]
          · rw [hls, hfields.1]
          · exact hds
          · rw [hbt, hfields.2.2.1]
          · rw [hbb, hfields.2.2.2.1]

theorem runActs_append (l1 l2 : List Act) : ∀ s : Store,
    runActs s (l1 ++ l2) =
      (match (runActs s l1).2.2 with
       | some e => ((runActs s l1).1, (runActs s l1).2.1, some e)
       | none =>
           ((runActs (runActs s l1).1 l2).1,
            (runActs s l1).2.1 ++ (runActs (runActs s l1).1 l2).2.1,
            (runActs (runActs s l1).1 l2).2.2)) := by
  induction l1 with
  | nil => intro s; simp [runActs]
  | cons a rest ih =>
      intro s
      show runActs s (a :: (rest ++ l2)) = _
      simp only [runActs]
      cases he1 : (runAct s a).2.2 with
      | some e => simp [he1]
      | none =>
          simp only [he1]
          rw [ih (runAct s a).1]
          cases he2 : (runActs (runAct s a).1 rest).2.2 with
          | some e => simp [he2]
          | none => simp [he2, List.append_assoc]

/-! ### Claim C4: batch coalescing -/

/-- C4: running `batch(fn)` on a clean store where `fn` performs `set`
calls (possibly through nested `batch` calls) and does not throw:
(i) during the body every write is only buffered — no handler fires, no
error, and an inner nested batch never flushes; (ii) the buffer is
last-write-wins per path — its keys are unique, in the order each path
was first written, and each path maps to the last value written to it;
(iii) the whole call flushes each buffered path exactly once through the
real write, firing one notification round per unique path in that
order, with only final values reaching handlers. -/
theorem batch_coalesces (s : Store) (body : List Act)
    (hd : s.destroyed = false) (hb : s.batching = false) (hbuf : s.batchBuffer = [])
    (hok : actsOk body = true)
    (hfl : (runAct s (.abatch body)).2.2 = none) :
    runActs { s with batching := true } body =
      ({ s with batching := true, batchBuffer := bufFold [] (flatSetsL body) }, [], none) ∧
    ((bufFold [] (flatSetsL body)).map Prod.fst).Nodup ∧
    (bufFold [] (flatSetsL body)).map Prod.fst =
      firstOccKeys ((flatSetsL body).map Prod.fst) ∧
    (∀ p, mapGet (bufFold [] (flatSetsL body)) p = lastVal (flatSetsL body) p) ∧
    runAct s (.abatch body) =
      ((flushEntries s (bufFold [] (flatSetsL body))).1,
       (bufFold [] (flatSetsL body)).flatMap
         (fun e => notifySeq s.listeners e.1 e.2 ((splitDots e.1).dropLast)),
       none) := by
  obtain ⟨st, ls, ao, des, bat, buf, ab, op⟩ := s
  obtain rfl : des = false := hd
  obtain rfl : bat = false := hb
  obtain rfl : buf = ([] : List (String × Val)) := hbuf
  have hrun := runActs_batching body ⟨st, ls, ao, false, true, [], ab, op⟩ rfl rfl hok
  have hkeys := keys_bufFold (flatSetsL body) []
  have hunf : runAct ⟨st, ls, ao, false, false, [], ab, op⟩ (.abatch body) =
      ((flushBatchOp { (runActs ⟨st, ls, ao, false, true, [], ab, op⟩ body).1 with
          batching := false }).1,
       (runActs ⟨st, ls, ao, false, true, [], ab, op⟩ body).2.1 ++
         (flushBatchOp { (runActs ⟨st, ls, ao, false, true, [], ab, op⟩ body).1 with
           batching := false }).2.1,
       match (flushBatchOp { (runActs ⟨st, ls, ao, false, true, [], ab, op⟩ body).1 with
           batching := false }).2.2 with
       | some e => some e
       | none => (runActs ⟨st, ls, ao, false, true, [], ab, op⟩ body).2.2) := rfl
  have hbatch : runAct ⟨st, ls, ao, false, false, [], ab, op⟩ (.abatch body) =
      ((flushEntries ⟨st, ls, ao, false, false, [], ab, op⟩
          (bufFold [] (flatSetsL body))).1,
       (flushEntries ⟨st, ls, ao, false, false, [], ab, op⟩
          (bufFold [] (flatSetsL body))).2.1,
       match (flushEntries ⟨st, ls, ao, false, false, [], ab, op⟩
          (bufFold [] (flatSetsL body))).2.2 with
       | some e => some e
       | none => none) := by
    rw [hunf, hrun]
    rfl
  have hfl' : (flushEntries ⟨st, ls, ao, false, false, [], ab, op⟩
      (bufFold [] (flatSetsL body))).2.2 = none := by
    rw [hbatch] at hfl
    cases he : (flushEntries ⟨st, ls, ao, false, false, [], ab, op⟩
        (bufFold [] (flatSetsL body))).2.2 with
    | none => rfl
    | some e =>
        rw [he] at hfl
        exact absurd hfl (by simp)
  obtain ⟨hfr, _, _, _, _⟩ :=
    flushEntries_spec (bufFold [] (flatSetsL body))
      ⟨st, ls, ao, false, false, [], ab, op⟩ rfl hfl'
  refine ⟨hrun, ?_, ?_, ?_, ?_⟩
  · rw [hkeys]
    simpa [firstOccKeys] using (firstOccAux_fresh ((flatSetsL body).map Prod.fst) []).2
  · rw [hkeys]
    simp [firstOccKeys]
  · intro p
    rw [mapGet_bufFold (flatSetsL body) [] p]
    cases lastVal (flatSetsL body) p <;> simp [mapGet]
  · rw [hbatch, hfl', hfr]

/-- Witness for C4: a batch that writes `x` twice and `y` once through a
nested batch, on a store with listeners on `x`, `y` and `*`. -/
theorem batch_coalesces_witness :
    (let s : Store :=
      { createEventState (Val.vObj []) with
        listeners := [("x", [1]), ("y", [2]), ("*", [3])] }
     let body : List Act :=
       [.aset "x" (Val.vNum 1), .aset "x" (Val.vNum 2),
        .abatch [.aset "y" (Val.vNum 3)]]
     s.destroyed = false ∧ s.batching = false ∧ s.batchBuffer = [] ∧
     actsOk body = true ∧ (runAct s (.abatch body)).2.2 = none ∧
     (runActs { s with batching := true } body =
        ({ s with batching := true, batchBuffer := bufFold [] (flatSetsL body) },
         [], none) ∧
      ((bufFold [] (flatSetsL body)).map Prod.fst).Nodup ∧
      (bufFold [] (flatSetsL body)).map Prod.fst =
        firstOccKeys ((flatSetsL body).map Prod.fst) ∧
      (∀ p, mapGet (bufFold [] (flatSetsL body)) p = lastVal (flatSetsL body) p) ∧
      runAct s (.abatch body) =
        ((flushEntries s (bufFold [] (flatSetsL body))).1,
         (bufFold [] (flatSetsL body)).flatMap
           (fun e => notifySeq s.listeners e.1 e.2 ((splitDots e.1).dropLast)),
         none))) := by
  refine ⟨rfl, rfl, rfl, rfl, rfl, ?_⟩
  exact batch_coalesces _ _ rfl rfl rfl rfl rfl

/-! ### Claim C8: a throwing batch body still flushes -/

/-- C8: when the body of an outermost `batch` throws after performing
some buffered writes, the `finally` discipline restores the batching
flag and still flushes the writes buffered before the throw, notifying
their subscribers, and the exception then propagates to the caller —
the batch is not rolled back and is therefore not atomic. -/
theorem batch_throw_still_flushes (s : Store) (pre post : List Act)
    (hd : s.destroyed = false) (hb : s.batching = false) (hbuf : s.batchBuffer = [])
    (hok : actsOk pre = true)
    (hfl : (flushEntries s (bufFold [] (flatSetsL pre))).2.2 = none) :
    runAct s (.abatch (pre ++ .athrow :: post)) =
      ((flushEntries s (bufFold [] (flatSetsL pre))).1,
       (bufFold [] (flatSetsL pre)).flatMap
         (fun e => notifySeq s.listeners e.1 e.2 ((splitDots e.1).dropLast)),
       some .userErr) ∧
    (flushEntries s (bufFold [] (flatSetsL pre))).1.batching = false := by
  obtain ⟨st, ls, ao, des, bat, buf, ab, op⟩ := s
  obtain rfl : des = false := hd
  obtain rfl : bat = false := hb
  obtain rfl : buf = ([] : List (String × Val)) := hbuf
  have hrun := runActs_batching pre ⟨st, ls, ao, false, true, [], ab, op⟩ rfl rfl hok
  obtain ⟨hfr, _, _, hbt, _⟩ :=
    flushEntries_spec (bufFold [] (flatSetsL pre))
      ⟨st, ls, ao, false, false, [], ab, op⟩ rfl hfl
  have hbody : runActs ⟨st, ls, ao, false, true, [], ab, op⟩ (pre ++ .athrow :: post) =
      (⟨st, ls, ao, false, true, bufFold [] (flatSetsL pre), ab, op⟩, [],
       some .userErr) := by
    rw [runActs_append pre (.athrow :: post) ⟨st, ls, ao, false, true, [], ab, op⟩, hrun]
    rfl
  have hunf : runAct ⟨st, ls, ao, false, false, [], ab, op⟩
      (.abatch (pre ++ .athrow :: post)) =
      ((flushBatchOp { (runActs ⟨st, ls, ao, false, true, [], ab, op⟩
          (pre ++ .athrow :: post)).1 with batching := false }).1,
       (runActs ⟨st, ls, ao, false, true, [], ab, op⟩
          (pre ++ .athrow :: post)).2.1 ++
         (flushBatchOp { (runActs ⟨st, ls, ao, false, true, [], ab, op⟩
           (pre ++ .athrow :: post)).1 with batching := false }).2.1,
       match (flushBatchOp { (runActs ⟨st, ls, ao, false, true, [], ab, op⟩
           (pre ++ .athrow :: post)).1 with batching := false }).2.2 with
       | some e => some e
       | none => (runActs ⟨st, ls, ao, false, true, [], ab, op⟩
           (pre ++ .athrow :: post)).2.2) := rfl
  constructor
  · rw [hunf, hbody]
    dsimp only [flushBatchOp]
    rw [hfl, hfr]
    simp
  · rw [hbt]

/-- Witness for C8: `batch(() => { set("x", 1); throw; set("y", 2) })`
with listeners on `x` and `*`: `x`'s write is flushed and notified, the
exception propagates, and `y` is never written. -/
theorem batch_throw_still_flushes_witness :
    (let s : Store :=
      { createEventState (Val.vObj []) with listeners := [("x", [1]), ("*", [3])] }
     let pre : List Act := [.aset "x" (Val.vNum 1)]
     let post : List Act := [.aset "y" (Val.vNum 2)]
     s.destroyed = false ∧ s.batching = false ∧ s.batchBuffer = [] ∧
     actsOk pre = true ∧
     (flushEntries s (bufFold [] (flatSetsL pre))).2.2 = none ∧
     (runAct s (.abatch (pre ++ .athrow :: post)) =
        ((flushEntries s (bufFold [] (flatSetsL pre))).1,
         (bufFold [] (flatSetsL pre)).flatMap
           (fun e => notifySeq s.listeners e.1 e.2 ((splitDots e.1).dropLast)),
         some .userErr) ∧
      (flushEntries s (bufFold [] (flatSetsL pre))).1.batching = false)) := by
  refine ⟨rfl, rfl, rfl, rfl, rfl, ?_⟩
  exact batch_throw_still_flushes _ _ _ rfl rfl rfl rfl rfl

/-! ### Claim C6: async last-request-wins -/

/-- C6: the canonical superseding scenario of `setAsync`, embedded as
the interleaving the event loop produces: `setAsync("data", slow)` (the
operation with controller 1), then `setAsync("data", fast)` (controller
2) before the first completes — which aborts controller 1 — then the
cooperative slow fetcher rejects with an AbortError (its completion
runs when the abort is observed, before the fast fetcher resolves), and
finally the fast fetcher resolves with `v`. The prior operation's
controller is aborted; the slow completion throws the cancellation
error to its own caller and, per the guarded `finally`, does not clear
the record now owned by operation 2; the fast completion leaves
`data.status = "success"` and `data.data = v` and clears the record:
the slow operation never overwrites the final state. -/
theorem setAsync_last_request_wins (v : Val) :
    (let s0 := createEventState (Val.vObj [])
     let r1 := stepStart s0 1 "data"
     let r2 := stepStart r1.1 2 "data"
     let r3 := stepResolveAbort r2.1 1
     let r4 := stepResolveOk r3.1 2 v
     -- starting the second operation aborts the first's controller
     1 ∈ r2.1.abortedCtrls ∧
     r1.2.2 = none ∧ r2.2.2 = none ∧
     -- the slow completion fails its caller with the cancellation error
     r3.2.2 = some .abortErr ∧
     -- it transiently wrote status "cancelled" ...
     getOp r3.1 (some "data.status") = .ok (Val.vStr "cancelled") ∧
     -- ... but did not clear operation 2's async record
     mapGet r3.1.asyncOps "data" = some 2 ∧
     -- the fast completion succeeds and clears its own record
     r4.2.2 = none ∧ mapGet r4.1.asyncOps "data" = none ∧
     -- final state: the fast fetcher's result stands
     getOp r4.1 (some "data.status") = .ok (Val.vStr "success") ∧
     getOp r4.1 (some "data.data") = .ok v) :=
  ⟨by decide, rfl, rfl, rfl, rfl, rfl, rfl, rfl, rfl, rfl⟩

end EventState
